import Mathlib

/-!
Verification of the decoration-rect accumulation and resize coordination core
of a terminal emulator (files `alacritty_terminal/src/renderer/rects.rs`,
`alacritty/src/display.rs`, `alacritty/src/event.rs`).

Floating point values (`f32`/`f64`) are modelled as rationals; Rust's `%` on
floats (truncated remainder), `floor`, and `round` (half away from zero) are
modelled exactly on `ℚ`.  Machine saturation does not occur in any modelled
quantity.  Only the fields of the source structs that the modelled functions
read are carried.
-/

namespace Alacritty

/-- Truncation of a rational toward zero, as Rust `as usize`/`as i64` casts and
the `%` operator do. -/
def ratTrunc (q : ℚ) : ℤ := if 0 ≤ q then ⌊q⌋ else -⌊-q⌋

/-- Rust `f32::round`: rounding half away from zero. -/
def roundAway (q : ℚ) : ℤ := if 0 ≤ q then ⌊q + 1/2⌋ else -⌊-q + 1/2⌋

/-- Rust `%` on floats: remainder with the sign of the dividend
(`a - b * trunc (a / b)`). -/
def rmod (a b : ℚ) : ℚ := a - b * ratTrunc (a / b)

/-- An RGB color (`term::color::Rgb`). -/
structure Rgb where
  r : ℕ
  g : ℕ
  b : ℕ
deriving DecidableEq, Repr

/-- The two cell flags tracked by the rect builder (`Flags::UNDERLINE`,
`Flags::STRIKEOUT`). -/
inductive Flag where
  | underline
  | strikeout
deriving DecidableEq, Repr

/-- The flag set of a cell (`term::cell::Flags`); only the two tracked bits are
modelled, the remaining bits are never read by the modelled code. -/
structure Flags where
  underline : Bool
  strikeout : Bool
deriving DecidableEq, Repr

/-- `Flags::contains` restricted to the two tracked one-bit flags. -/
def Flags.containsF (fl : Flags) (f : Flag) : Bool :=
  match f with
  | .underline => fl.underline
  | .strikeout => fl.strikeout

/-- A grid point (`index::Point`): 0-based line and column. -/
structure Point where
  line : ℕ
  col : ℕ
deriving DecidableEq, Repr

/-- A renderable cell (`term::RenderableCell`): the fields read by
`Rects::update_lines` and `create_rect`. -/
structure RenderableCell where
  line : ℕ
  column : ℕ
  fg : Rgb
  flags : Flags
deriving DecidableEq, Repr

/-- `RenderableCell::into::<Point>()`. -/
def pointOfCell (c : RenderableCell) : Point := ⟨c.line, c.column⟩

/-- Font metrics (`font::Metrics`): the fields read by `create_rect`. -/
structure Metrics where
  underline_position : ℚ
  underline_thickness : ℚ
  strikeout_position : ℚ
  strikeout_thickness : ℚ
  descent : ℚ
deriving DecidableEq, Repr

/-- `term::SizeInfo`: viewport size, cell metrics, padding and device pixel
ratio. -/
structure SizeInfo where
  width : ℚ
  height : ℚ
  cell_width : ℚ
  cell_height : ℚ
  padding_x : ℚ
  padding_y : ℚ
  dpr : ℚ
deriving DecidableEq, Repr

/-- Modelled from the spec: `SizeInfo::cols` lives in
`alacritty_terminal/src/term` which is not part of the provided sources; the
spec derives the column count as `floor((dimension - 2*padding) / cell_dim)`,
`>= 0` (the Rust code casts the `f32` quotient with `as usize`, which
truncates toward zero and saturates at zero). -/
def SizeInfo.cols (s : SizeInfo) : ℕ :=
  (ratTrunc ((s.width - 2 * s.padding_x) / s.cell_width)).toNat

/-- Modelled from the spec: `SizeInfo::lines`, derived exactly like
`SizeInfo.cols` but on the vertical axis. -/
def SizeInfo.lines (s : SizeInfo) : ℕ :=
  (ratTrunc ((s.height - 2 * s.padding_y) / s.cell_height)).toNat

/-- An axis-aligned rectangle in pixel units (`renderer::rects::Rect<f32>`). -/
structure Rect where
  x : ℚ
  y : ℚ
  width : ℚ
  height : ℚ
deriving DecidableEq, Repr

/-- The per-flag metric pair selected by the `match flag` in `create_rect`
(the catch-all arm of the source is `unimplemented!` and unreachable for the
closed flag set). -/
def flagMetrics (f : Flag) (metrics : Metrics) : ℚ × ℚ :=
  match f with
  | .underline => (metrics.underline_position, metrics.underline_thickness)
  | .strikeout => (metrics.strikeout_position, metrics.strikeout_thickness)

/-- `create_rect`: the rectangle for a flushed run from the left of `start` to
the right of `endPoint`, with the run's starting cell foreground color. -/
def create_rect (start : RenderableCell) (endPoint : Point) (flag : Flag)
    (metrics : Metrics) (size : SizeInfo) (offset : ℚ × ℚ) : Rect × Rgb :=
  let start_x : ℚ := start.column * size.cell_width
  let end_x : ℚ := (endPoint.col + 1 : ℕ) * size.cell_width
  let width := end_x - start_x
  let ph := flagMetrics flag metrics
  let height := max ph.2 1
  let cell_bottom := ((start.line : ℚ) + 1) * size.cell_height
  let baseline := cell_bottom + metrics.descent
  let y0 := baseline - ph.1 - height / 2
  let max_y := cell_bottom - height
  let y := if y0 > max_y then max_y else y0
  (⟨start_x + size.padding_x + offset.1,
    (roundAway y : ℚ) + size.padding_y + offset.2,
    width, (roundAway height : ℚ)⟩, start.fg)

/-- An open or flushed run: the starting cell and the current end point. -/
abbrev Run := RenderableCell × Point

/-- The run-continuation test of `Rects::update_lines`: same row as the start,
flag still set, same foreground, column exactly one past the current end. -/
def contRun (s : RenderableCell) (e : Point) (f : Flag) (c : RenderableCell) : Prop :=
  c.line = s.line ∧ c.flags.containsF f = true ∧ c.fg = s.fg ∧ c.column = e.col + 1

instance (s : RenderableCell) (e : Point) (f : Flag) (c : RenderableCell) :
    Decidable (contRun s e f c) :=
  inferInstanceAs (Decidable (_ ∧ _ ∧ _ ∧ _))

/-- The end-of-terminal test of `Rects::update_lines`:
`size_info.cols() == cell.column && size_info.lines() == cell.line`. -/
def atEnd (size_info : SizeInfo) (c : RenderableCell) : Prop :=
  size_info.cols = c.column ∧ size_info.lines = c.line

instance (size_info : SizeInfo) (c : RenderableCell) : Decidable (atEnd size_info c) :=
  inferInstanceAs (Decidable (_ ∧ _))

/-- One tracked decoration line (`rects::Line`): its flag and the open run. -/
structure Line where
  flag : Flag
  range : Option Run
deriving DecidableEq, Repr

/-- The body of the `match line.range` in `Rects::update_lines` for one
tracked line: the new open range and the flushed runs (at most one). -/
def lineStep (size_info : SizeInfo) (c : RenderableCell) (f : Flag) :
    Option Run → Option Run × List Run
  | some (s, e) =>
    if contRun s e f c then
      if atEnd size_info c then
        -- add the last rect at the end of the terminal; the range is not updated
        (some (s, e), [(s, pointOfCell c)])
      else
        -- update the length of the line
        (some (s, pointOfCell c), [])
    else
      -- flush, then start a new line if the flag is present
      if c.flags.containsF f then (some (c, pointOfCell c), [(s, e)])
      else (none, [(s, e)])
  | none =>
    if c.flags.containsF f then (some (c, pointOfCell c), []) else (none, [])

/-- A flushed run turned into a rectangle with `create_rect`. -/
def mkRect (metrics : Metrics) (size : SizeInfo) (offset : ℚ × ℚ) (f : Flag)
    (p : Run) : Rect × Rgb :=
  create_rect p.1 p.2 f metrics size offset

/-- The `for line in self.active_lines` loop of `Rects::update_lines`:
updated lines and rectangles pushed in loop order. -/
def updateLinesList (size_info : SizeInfo) (c : RenderableCell) (metrics : Metrics)
    (size : SizeInfo) (offset : ℚ × ℚ) : List Line → List Line × List (Rect × Rgb)
  | [] => ([], [])
  | l :: ls =>
    let s := lineStep size_info c l.flag l.range
    let r := updateLinesList size_info c metrics size offset ls
    (⟨l.flag, s.1⟩ :: r.1, s.2.map (mkRect metrics size offset l.flag) ++ r.2)

/-- `renderer::rects::Rects`: accumulated rectangles, the tracked lines, and
the stored metrics and size used by `create_rect`. -/
structure Rects where
  inner : List (Rect × Rgb)
  active_lines : List Line
  metrics : Metrics
  size : SizeInfo
deriving DecidableEq, Repr

/-- `Rects::new`: empty rect list, one empty line per tracked flag. -/
def Rects.new (metrics : Metrics) (size : SizeInfo) : Rects :=
  ⟨[], [⟨.underline, none⟩, ⟨.strikeout, none⟩], metrics, size⟩

/-- `Rects::update_lines`: update the stored lines with the next cell info. -/
def Rects.update_lines (r : Rects) (size_info : SizeInfo) (cell : RenderableCell)
    (offset : ℚ × ℚ) : Rects :=
  let u := updateLinesList size_info cell r.metrics r.size offset r.active_lines
  { r with active_lines := u.1, inner := r.inner ++ u.2 }

/-- `Rects::push`: append an externally built rectangle. -/
def Rects.push (r : Rects) (rect : Rect) (color : Rgb) : Rects :=
  { r with inner := r.inner ++ [(rect, color)] }

/-- Feeding a sequence of cells to `Rects::update_lines` one by one. -/
def foldCells (size_info : SizeInfo) (offset : ℚ × ℚ) (cells : List RenderableCell)
    (r : Rects) : Rects :=
  cells.foldl (fun acc c => acc.update_lines size_info c offset) r

/-- The per-flag scan of `lineStep` over a cell sequence: final open range and
all flushed runs in flush order. -/
def codeScanFrom (size_info : SizeInfo) (f : Flag) (st : Option Run) :
    List RenderableCell → Option Run × List Run
  | [] => (st, [])
  | c :: cs =>
    let s := lineStep size_info c f st
    let r := codeScanFrom size_info f s.1 cs
    (r.1, s.2 ++ r.2)

/-- The two tracked flags scanned together, with the rectangles interleaved in
the order `Rects::update_lines` pushes them (underline first, then strikeout,
per cell). -/
def pairScan (size_info : SizeInfo) (metrics : Metrics) (size : SizeInfo)
    (offset : ℚ × ℚ) (stu sts : Option Run) :
    List RenderableCell → Option Run × Option Run × List (Rect × Rgb)
  | [] => (stu, sts, [])
  | c :: cs =>
    let su := lineStep size_info c .underline stu
    let ss := lineStep size_info c .strikeout sts
    let r := pairScan size_info metrics size offset su.1 ss.1 cs
    (r.1, r.2.1,
      su.2.map (mkRect metrics size offset .underline)
        ++ ss.2.map (mkRect metrics size offset .strikeout) ++ r.2.2)

/-- Specification-side step of the maximal-run grouping, following the spec's
words: a run is extended by a contiguous same-row, same-flag, same-foreground
cell; any other cell closes the run (emitting it) and, when it carries the
flag itself, opens a new run at that cell. -/
def specStep (f : Flag) (st : Option Run) (c : RenderableCell) : Option Run × List Run :=
  match st with
  | some (s, e) =>
    if contRun s e f c then (some (s, pointOfCell c), [])
    else if c.flags.containsF f then (some (c, pointOfCell c), [(s, e)])
    else (none, [(s, e)])
  | none =>
    if c.flags.containsF f then (some (c, pointOfCell c), []) else (none, [])

/-- Specification-side scan: closed maximal runs in order, plus the run still
open at the end of the sequence. -/
def specScanFrom (f : Flag) (st : Option Run) :
    List RenderableCell → Option Run × List Run
  | [] => (st, [])
  | c :: cs =>
    let s := specStep f st c
    let r := specScanFrom f s.1 cs
    (r.1, s.2 ++ r.2)

/-- The maximal runs of the sequence that are closed by a later cell. -/
def specClosedRuns (f : Flag) (cells : List RenderableCell) : List Run :=
  (specScanFrom f none cells).2

/-- The maximal run still open after the last cell, if any. -/
def specOpenRun (f : Flag) (cells : List RenderableCell) : Option Run :=
  (specScanFrom f none cells).1

/-- All maximal contiguous same-flag same-foreground runs of the sequence, the
trailing still-open one included. -/
def specMaximalRuns (f : Flag) (cells : List RenderableCell) : List Run :=
  specClosedRuns f cells ++ (specOpenRun f cells).toList

/-- Strict scan order on cells: top-to-bottom rows, left-to-right columns. -/
def cellLt (a b : RenderableCell) : Prop :=
  a.line < b.line ∨ (a.line = b.line ∧ a.column < b.column)

instance (a b : RenderableCell) : Decidable (cellLt a b) :=
  inferInstanceAs (Decidable (_ ∨ _))

/-- A cell sequence in left-to-right, top-to-bottom scan order. -/
def scanOrdered (cells : List RenderableCell) : Prop :=
  List.Pairwise cellLt cells

/-- An end point strictly precedes a cell in scan order. -/
def endLt (e : Point) (c : RenderableCell) : Prop :=
  e.line < c.line ∨ (e.line = c.line ∧ e.col < c.column)

instance (e : Point) (c : RenderableCell) : Decidable (endLt e c) :=
  inferInstanceAs (Decidable (_ ∨ _))

/-- One run ends strictly before the next one starts, in scan order. -/
def runBefore (a b : Run) : Prop := endLt a.2 b.1

instance (a b : Run) : Decidable (runBefore a b) :=
  inferInstanceAs (Decidable (endLt _ _))

/-- A well-formed run: start and end on the same row, start not past the end. -/
def runWf (a : Run) : Prop := a.1.line = a.2.line ∧ a.1.column ≤ a.2.col

instance (a : Run) : Decidable (runWf a) := inferInstanceAs (Decidable (_ ∧ _))

/-- The corrected correspondence between the rectangles accumulated by
`Rects::update_lines` over a cell sequence and the specification's maximal
runs: the rectangles are exactly the `create_rect` images of the maximal runs
that are closed by a later cell; those runs are well formed and pairwise
ordered (hence per flag never overlapping in columns within a row); and every
rectangle carries its run's starting cell foreground color. -/
def c1Correspondence (size_info : SizeInfo) (offset : ℚ × ℚ) (metrics : Metrics)
    (size : SizeInfo) (cells : List RenderableCell) : Prop :=
  let r := foldCells size_info offset cells (Rects.new metrics size)
  r.inner.Perm
      ((specClosedRuns .underline cells).map (mkRect metrics size offset .underline)
        ++ (specClosedRuns .strikeout cells).map (mkRect metrics size offset .strikeout))
    ∧ (∀ f, List.Pairwise runBefore (specClosedRuns f cells))
    ∧ (∀ f, ∀ p ∈ specClosedRuns f cells, runWf p)
    ∧ (∀ x ∈ r.inner, ∃ f p, p ∈ specClosedRuns f cells
        ∧ x = mkRect metrics size offset f p ∧ x.2 = p.1.fg)

/-- A pending resize-class signal (`event::Resize`). -/
inductive Resize where
  | Size (w h : ℚ)
  | MessageBar (lines : ℕ)
  | FontSize (size : ℚ)
  | DPR (dpr : ℚ)
deriving DecidableEq, Repr

/-- The configuration fields read by the resize paths: requested window
padding and the dynamic-padding flag. -/
structure Config where
  padding_x : ℚ
  padding_y : ℚ
  dynamic_padding : Bool
deriving DecidableEq, Repr

/-- The display state mutated by `Display::handle_resize`: the authoritative
`SizeInfo` and the current font size (in points). -/
structure DisplayState where
  size_info : SizeInfo
  font_size : ℚ
deriving DecidableEq, Repr

/-- The coalesced signal values after draining the resize channel:
`new_size`, `new_dpr`, `new_font_size`, `message_bar_lines`. -/
structure Coalesced where
  new_size : Option (ℚ × ℚ)
  new_dpr : ℚ
  new_font_size : ℚ
  message_bar_lines : Option ℕ
deriving DecidableEq, Repr

/-- One iteration of the drain loop of `Display::handle_resize`: the received
signal overwrites the value of its kind. -/
def coalStep (a : Coalesced) (r : Resize) : Coalesced :=
  match r with
  | .MessageBar lines => { a with message_bar_lines := some lines }
  | .FontSize size => { a with new_font_size := size }
  | .Size w h => { a with new_size := some (w, h) }
  | .DPR dpr => { a with new_dpr := dpr }

/-- The drain loop of `Display::handle_resize`: take the most recent value of
each signal kind, starting from the current state. -/
def coalesce (st : DisplayState) (queue : List Resize) : Coalesced :=
  queue.foldl coalStep ⟨none, st.size_info.dpr, st.font_size, none⟩

/-- The outward effects of one `handle_resize` call: glyph-cache rebuilds,
full geometry recomputations, the pty `on_resize` notification, the GPU
context/renderer resize, and the resize event broadcast. -/
structure Effects where
  glyphRebuilds : ℕ
  geometryRecomputes : ℕ
  ptyNotify : Option SizeInfo
  rendererResize : Option ((ℚ × ℚ) × ℚ × ℚ)
  resizeEventSent : Option SizeInfo
deriving DecidableEq, Repr

/-- No outward effect at all. -/
def noEffects : Effects := ⟨0, 0, none, none, none⟩

/-- `font_changed`: the coalesced font size differs from the current one or
the coalesced DPR differs from the current one (the source compares the DPR
difference against `f64::EPSILON`; modelled as exact inequality). -/
def fontChanged (st : DisplayState) (co : Coalesced) : Prop :=
  co.new_font_size ≠ st.font_size ∨ co.new_dpr ≠ st.size_info.dpr

instance (st : DisplayState) (co : Coalesced) : Decidable (fontChanged st co) :=
  inferInstanceAs (Decidable (_ ∨ _))

/-- The `if font_changed || message_bar_lines.is_some()` block: synthesize an
explicit size from the DPI ratio when none arrived, and commit the new font
size and DPR. -/
def applyStage1 (st : DisplayState) (co : Coalesced) : DisplayState × Option (ℚ × ℚ) :=
  if fontChanged st co ∨ co.message_bar_lines.isSome = true then
    (⟨{ st.size_info with dpr := co.new_dpr }, co.new_font_size⟩,
      some (co.new_size.getD
        (st.size_info.width / st.size_info.dpr * co.new_dpr,
         st.size_info.height / st.size_info.dpr * co.new_dpr)))
  else (st, co.new_size)

/-- The `if font_changed { update_glyph_cache }` step: the external glyph
cache recomputes the cell size from the committed font size and DPR
(`cellSize` stands for `GlyphCache::compute_cell_size`, an external
collaborator), and the rebuild is counted. -/
def applyGlyph (cellSize : ℚ → ℚ → ℚ × ℚ) (st : DisplayState) (rebuild : Prop)
    [Decidable rebuild] : DisplayState × ℕ :=
  if rebuild then
    let c := cellSize st.font_size st.size_info.dpr
    (⟨{ st.size_info with cell_width := c.1, cell_height := c.2 }, st.font_size⟩, 1)
  else (st, 0)

/-- The geometry recomputation of the resize path (`display.rs` lines
316-334): store the new viewport size and recompute the padding, dynamically
spreading the cell-fitting remainder when configured. -/
def resizeSizeInfoFn (cfg : Config) (dpr w h cw ch : ℚ) : SizeInfo :=
  let px0 := cfg.padding_x * dpr
  let py0 := cfg.padding_y * dpr
  let px := if cfg.dynamic_padding then px0 + rmod (w - 2 * px0) cw / 2 else px0
  let py := if cfg.dynamic_padding then py0 + rmod (h - 2 * py0) ch / 2 else py0
  { width := w, height := h, cell_width := cw, cell_height := ch,
    padding_x := (⌊px⌋ : ℤ), padding_y := (⌊py⌋ : ℤ), dpr := dpr }

/-- The `if let Some(psize) = new_size.take()` block: apply the geometry,
derive the pty-visible size by subtracting the message-bar height, notify the
pty when the grid or the message bar changed, and resize the GPU viewport. -/
def applyFinal (cfg : Config) (co : Coalesced) (prevCols prevLines : ℕ)
    (st : DisplayState) (glyphs : ℕ) : Option (ℚ × ℚ) → DisplayState × Effects
  | none => (st, { noEffects with glyphRebuilds := glyphs })
  | some (w, h) =>
    let si := resizeSizeInfoFn cfg co.new_dpr w h st.size_info.cell_width
      st.size_info.cell_height
    let pty_size := match co.message_bar_lines with
      | some lines => { si with height := si.height - si.cell_height * lines }
      | none => si
    let notify := co.message_bar_lines.isSome = true
      ∨ prevCols ≠ pty_size.cols ∨ prevLines ≠ pty_size.lines
    (⟨si, st.font_size⟩,
      { glyphRebuilds := glyphs, geometryRecomputes := 1,
        ptyNotify := if notify then some pty_size else none,
        rendererResize := some ((w, h), si.padding_x, si.padding_y),
        resizeEventSent := some si })

/-- The body of `handle_resize` after the early-exit check. -/
def hrRest (cellSize : ℚ → ℚ → ℚ × ℚ) (cfg : Config) (st : DisplayState)
    (co : Coalesced) : DisplayState × Effects :=
  let s1 := applyStage1 st co
  let s2 := applyGlyph cellSize s1.1 (fontChanged st co)
  applyFinal cfg co st.size_info.cols st.size_info.lines s2.1 s2.2 s1.2

/-- `Display::handle_resize`: drain and coalesce the pending resize signals,
skip when an explicit size arrived that changes nothing, otherwise apply the
coalesced decision (the source compares sizes up to `f64::EPSILON`; modelled
as exact equality). -/
def handle_resize (cellSize : ℚ → ℚ → ℚ × ℚ) (cfg : Config) (st : DisplayState)
    (queue : List Resize) : DisplayState × Effects :=
  let co := coalesce st queue
  match co.new_size with
  | some (w, h) =>
    if ¬ fontChanged st co ∧ w = st.size_info.width ∧ h = st.size_info.height then
      (st, noEffects)
    else hrRest cellSize cfg st co
  | none => hrRest cellSize cfg st co

/-- The construction-path geometry of `Display::new` (lines 142-180): when the
external `GlyphCache::calculate_dimensions` (not part of the provided sources)
yields explicit dimensions they replace the viewport and the configured
padding is used as-is; otherwise dynamic padding spreads the remainder; the
padding is floored and the `SizeInfo` is assembled. -/
def newPathSizeInfo (cfg : Config) (dpr vw vh cw ch : ℚ) (calcDims : Option (ℚ × ℚ)) :
    SizeInfo :=
  let px0 := cfg.padding_x * dpr
  let py0 := cfg.padding_y * dpr
  match calcDims with
  | some (w, h) =>
    { width := w, height := h, cell_width := cw, cell_height := ch,
      padding_x := (⌊px0⌋ : ℤ), padding_y := (⌊py0⌋ : ℤ), dpr := dpr }
  | none =>
    let px := if cfg.dynamic_padding then px0 + rmod (vw - 2 * px0) cw / 2 else px0
    let py := if cfg.dynamic_padding then py0 + rmod (vh - 2 * py0) ch / 2 else py0
    { width := vw, height := vh, cell_width := cw, cell_height := ch,
      padding_x := (⌊px⌋ : ℤ), padding_y := (⌊py⌋ : ℤ), dpr := dpr }

/-- `FONT_SIZE_STEP` (points). -/
def FONT_SIZE_STEP : ℚ := 1/2

/-- `ActionContext::change_font_size`: the new font size is the old one plus
the delta, floored at `FONT_SIZE_STEP` (font sizes modelled in points). -/
def change_font_size (font_size delta : ℚ) : ℚ :=
  max (font_size + delta) FONT_SIZE_STEP

/-- The render hand-off at the end of a drain phase (`process_events` lines
569-584): when the terminal is dirty and a redraw was requested, send exactly
one render update, clear the redraw request, and clear the dirty flag unless
the visual bell has not completed; otherwise send nothing and leave the flags
alone.  Returns (new dirty flag, new redraw-requested flag, render updates
sent). -/
def renderHandoff (dirty redraw_requested bell_completed : Bool) : Bool × Bool × ℕ :=
  if dirty && redraw_requested then (!bell_completed, false, 1)
  else (dirty, redraw_requested, 0)

/-- The last `Size` signal in a queue, if any. -/
def lastSize (queue : List Resize) : Option (ℚ × ℚ) :=
  (queue.filterMap fun r => match r with | .Size w h => some (w, h) | _ => none).getLast?

/-- The last `DPR` signal in a queue, if any. -/
def lastDPR (queue : List Resize) : Option ℚ :=
  (queue.filterMap fun r => match r with | .DPR d => some d | _ => none).getLast?

/-- The last `FontSize` signal in a queue, if any. -/
def lastFontSize (queue : List Resize) : Option ℚ :=
  (queue.filterMap fun r => match r with | .FontSize s => some s | _ => none).getLast?

/-- The last `MessageBar` signal in a queue, if any. -/
def lastMessageBar (queue : List Resize) : Option ℕ :=
  (queue.filterMap fun r => match r with | .MessageBar n => some n | _ => none).getLast?

/-- Keep the first of two options, fall back to the second. -/
def optOr (a b : Option α) : Option α :=
  match a with
  | some x => some x
  | none => b

/-- The claim that the rectangles accumulated over a fed cell sequence tile
exactly ALL maximal contiguous same-flag same-foreground runs (the trailing
still-open run included), pairwise non-overlapping, with the run's starting
foreground color. -/
def c1AsStated (size_info : SizeInfo) (offset : ℚ × ℚ) (metrics : Metrics)
    (size : SizeInfo) (cells : List RenderableCell) : Prop :=
  let r := foldCells size_info offset cells (Rects.new metrics size)
  r.inner.Perm
      ((specMaximalRuns .underline cells).map (mkRect metrics size offset .underline)
        ++ (specMaximalRuns .strikeout cells).map (mkRect metrics size offset .strikeout))
    ∧ (∀ f, List.Pairwise runBefore (specMaximalRuns f cells))
    ∧ (∀ x ∈ r.inner, ∃ f p, p ∈ specMaximalRuns f cells
        ∧ x = mkRect metrics size offset f p ∧ x.2 = p.1.fg)

/-- The claim that a flushed run's rectangle has the stated x and width, a
height equal to the per-flag thickness floored at one pixel, and a vertical
position clamped so the rectangle never extends below the starting cell row's
bottom edge. -/
def c3AsStated (start : RenderableCell) (e : Point) (f : Flag) (m : Metrics)
    (size : SizeInfo) (offset : ℚ × ℚ) : Prop :=
  let rc := create_rect start e f m size offset
  rc.1.x = start.column * size.cell_width + size.padding_x + offset.1
    ∧ rc.1.width = ((e.col : ℚ) + 1 - start.column) * size.cell_width
    ∧ rc.1.height = max (flagMetrics f m).2 1
    ∧ rc.1.y + rc.1.height
        ≤ ((start.line : ℚ) + 1) * size.cell_height + size.padding_y + offset.2

/-- Foreground color used by the concrete scenarios. -/
def red : Rgb := ⟨255, 0, 0⟩

/-- A flag set with only `UNDERLINE`. -/
def flagU : Flags := ⟨true, false⟩

/-- A 2-column, 1-line grid: 20x10 viewport, 10x10 cells, no padding. -/
def sz2 : SizeInfo := ⟨20, 10, 10, 10, 0, 0, 1⟩

/-- Arbitrary metrics for the run-accumulation scenarios. -/
def m2 : Metrics := ⟨1, 1, 1, 1, -1⟩

/-- Underlined red cell at row 0, column 0. -/
def cellA : RenderableCell := ⟨0, 0, red, flagU⟩

/-- Underlined red cell at row 0, column 1. -/
def cellB : RenderableCell := ⟨0, 1, red, flagU⟩

/-- Plain cell at row 0, column 1 (closes a run). -/
def cellBoff : RenderableCell := ⟨0, 1, red, ⟨false, false⟩⟩

/-- Metrics with underline thickness 3/2 at position 0 and descent 0. -/
def m3 : Metrics := ⟨0, 3/2, 0, 0, 0⟩

/-- A 10x10-cell grid with no padding. -/
def sz3 : SizeInfo := ⟨100, 100, 10, 10, 0, 0, 1⟩

/-- Display state for the coalescing scenario: 800x600 at dpr 1, 5x8 cells. -/
def dSt4 : DisplayState := ⟨⟨800, 600, 5, 8, 0, 0, 1⟩, 11⟩

/-- Cell-size recomputation for the coalescing scenario: 5x8 scaled by dpr. -/
def cs4 : ℚ → ℚ → ℚ × ℚ := fun _ d => (5 * d, 8 * d)

/-- Fixed zero padding configuration. -/
def cfg4 : Config := ⟨0, 0, false⟩

/-- Display state for the no-op scenario: 800x600 at dpr 1, font size 6. -/
def dSt5 : DisplayState := ⟨⟨800, 600, 10, 16, 0, 0, 1⟩, 6⟩

/-- A cell-size function for the no-op scenario. -/
def cs5 : ℚ → ℚ → ℚ × ℚ := fun s d => (s, d)

/-- A dynamic-padding configuration. -/
def cfg5 : Config := ⟨2, 2, true⟩

/-- Display state for the message-bar scenario: 80x24 grid of 10x16 cells. -/
def dSt6 : DisplayState := ⟨⟨800, 384, 10, 16, 0, 0, 1⟩, 11⟩

/-- A constant cell-size function for the message-bar scenario. -/
def cs6 : ℚ → ℚ → ℚ × ℚ := fun _ _ => (10, 16)


theorem optOr_none (a : Option α) : optOr a none = a := by
  cases a <;> rfl

theorem optOr_some (v : α) (b : Option α) : optOr (some v) b = some v := rfl

theorem optOr_assoc (a b c : Option α) : optOr (optOr a b) c = optOr a (optOr b c) := by
  cases a <;> rfl

theorem getLast_cons (v : α) (l : List α) :
    (v :: l).getLast? = optOr l.getLast? (some v) := by
  cases l with
  | nil => rfl
  | cons x xs =>
    rw [List.getLast?_cons_cons]
    have h : (x :: xs).getLast? ≠ none := by
      simp [List.getLast?_isSome.symm]
    cases hx : (x :: xs).getLast? with
    | none => exact absurd hx h
    | some y => rfl

theorem getD_optOr_some (o : Option α) (v d : α) :
    (optOr o (some v)).getD d = o.getD v := by
  cases o <;> rfl

theorem coalesce_foldl_eq (queue : List Resize) (acc : Coalesced) :
    queue.foldl coalStep acc
      = ⟨optOr (lastSize queue) acc.new_size,
         (lastDPR queue).getD acc.new_dpr,
         (lastFontSize queue).getD acc.new_font_size,
         optOr (lastMessageBar queue) acc.message_bar_lines⟩ := by
  induction queue generalizing acc with
  | nil => simp only [List.foldl_nil, lastSize, lastDPR, lastFontSize, lastMessageBar,
      List.filterMap_nil, List.getLast?_nil, optOr, Option.getD_none]
  | cons r rest ih =>
    rw [List.foldl_cons, ih]
    cases r <;>
      (simp only [lastSize, lastDPR, lastFontSize, lastMessageBar, coalStep,
        List.filterMap_cons, getLast_cons, Coalesced.mk.injEq, optOr_assoc, optOr_some,
        getD_optOr_some, and_true, true_and, and_self]
       try trivial)

theorem handle_resize_noop (cellSize : ℚ → ℚ → ℚ × ℚ) (cfg : Config)
    (st : DisplayState) (queue : List Resize)
    (h : coalesce st queue = ⟨none, st.size_info.dpr, st.font_size, none⟩) :
    handle_resize cellSize cfg st queue = (st, noEffects) := by
  simp only [handle_resize, h]
  simp [hrRest, applyStage1, applyGlyph, applyFinal, fontChanged, noEffects]

theorem handle_resize_empty (cellSize : ℚ → ℚ → ℚ × ℚ) (cfg : Config)
    (st : DisplayState) : handle_resize cellSize cfg st [] = (st, noEffects) :=
  handle_resize_noop cellSize cfg st [] rfl

/-- C5: when the drained queue coalesces to no explicit size, no message-bar
change, and the current font size and DPR, `handle_resize` is a no-op: the
state is unchanged and no glyph rebuild, pty notification, renderer resize or
resize-event broadcast happens; consequently a second `handle_resize` with an
empty queue leaves any state unchanged. -/
theorem c5_noop_idempotent (cellSize : ℚ → ℚ → ℚ × ℚ) (cfg : Config)
    (st : DisplayState) (queue : List Resize)
    (h : coalesce st queue = ⟨none, st.size_info.dpr, st.font_size, none⟩) :
    handle_resize cellSize cfg st queue = (st, noEffects)
    ∧ ∀ q2 : List Resize,
        (handle_resize cellSize cfg (handle_resize cellSize cfg st q2).1 []).1
          = (handle_resize cellSize cfg st q2).1 :=
  ⟨handle_resize_noop cellSize cfg st queue h,
   fun q2 => by rw [handle_resize_empty]⟩

theorem c5_witness :
    coalesce dSt5 [Resize.FontSize 6, Resize.DPR 1]
        = ⟨none, dSt5.size_info.dpr, dSt5.font_size, none⟩
    ∧ (handle_resize cs5 cfg5 dSt5 [Resize.FontSize 6, Resize.DPR 1] = (dSt5, noEffects)
        ∧ ∀ q2 : List Resize,
            (handle_resize cs5 cfg5 (handle_resize cs5 cfg5 dSt5 q2).1 []).1
              = (handle_resize cs5 cfg5 dSt5 q2).1) :=
  ⟨rfl, c5_noop_idempotent cs5 cfg5 dSt5 [Resize.FontSize 6, Resize.DPR 1] rfl⟩

/-- C10: `change_font_size` sets the font size to the maximum of the old size
plus the delta and `FONT_SIZE_STEP`, so the resulting size never drops below
half a point, for arbitrary (also arbitrarily negative) deltas. -/
theorem c10_font_size_floor (font_size delta : ℚ) :
    change_font_size font_size delta = max (font_size + delta) FONT_SIZE_STEP
    ∧ FONT_SIZE_STEP ≤ change_font_size font_size delta
    ∧ (1 : ℚ)/2 ≤ change_font_size font_size delta :=
  ⟨rfl, le_max_right _ _, le_max_right _ _⟩

/-- C8: in a drain phase a render update is handed off exactly when both the
content-dirty flag and the redraw-requested flag are set, hence at most once;
afterwards the dirty flag is cleared unless the visual bell has not completed,
in which case it stays set, and the redraw request is cleared. -/
theorem c8_render_handoff (dirty redraw_requested bell_completed : Bool) :
    (renderHandoff dirty redraw_requested bell_completed).2.2 ≤ 1
    ∧ ((renderHandoff dirty redraw_requested bell_completed).2.2 = 1
        ↔ (dirty = true ∧ redraw_requested = true))
    ∧ (renderHandoff dirty redraw_requested bell_completed).1
        = (if dirty && redraw_requested then !bell_completed else dirty)
    ∧ (renderHandoff dirty redraw_requested bell_completed).2.1
        = (if dirty && redraw_requested then false else redraw_requested) := by
  cases dirty <;> cases redraw_requested <;> cases bell_completed <;>
    simp [renderHandoff]

/-- C7: the resize path computes each axis padding as the floor of the
configured padding scaled by the DPR, plus, under dynamic padding, half the
remainder of fitting whole cells into the viewport; and on identical inputs
(no external dimensions override in the construction path) the
construction-path geometry of `Display::new` yields the identical `SizeInfo`
as the resize path. -/
theorem c7_padding_paths_agree (cfg : Config) (dpr vw vh cw ch : ℚ) :
    (resizeSizeInfoFn cfg dpr vw vh cw ch).padding_x
        = ((⌊if cfg.dynamic_padding
              then cfg.padding_x * dpr + rmod (vw - 2 * (cfg.padding_x * dpr)) cw / 2
              else cfg.padding_x * dpr⌋ : ℤ) : ℚ)
    ∧ (resizeSizeInfoFn cfg dpr vw vh cw ch).padding_y
        = ((⌊if cfg.dynamic_padding
              then cfg.padding_y * dpr + rmod (vh - 2 * (cfg.padding_y * dpr)) ch / 2
              else cfg.padding_y * dpr⌋ : ℤ) : ℚ)
    ∧ newPathSizeInfo cfg dpr vw vh cw ch none = resizeSizeInfoFn cfg dpr vw vh cw ch := by
  cases h : cfg.dynamic_padding <;>
    simp [resizeSizeInfoFn, newPathSizeInfo, h]

/-- C4: draining the resize queue keeps only the last value observed per
signal kind (earlier same-kind values are discarded); in particular for
`[Size(800x600), DPR(2.0), Size(810x600)]` arriving in one tick against an
800x600 state at dpr 1, the applied size is 810x600 at dpr 2 with exactly one
glyph-cache rebuild and one geometry recomputation. -/
theorem c4_coalesce_last_per_kind :
    (∀ (st : DisplayState) (queue : List Resize),
      coalesce st queue
        = ⟨lastSize queue, (lastDPR queue).getD st.size_info.dpr,
           (lastFontSize queue).getD st.font_size, lastMessageBar queue⟩)
    ∧ (handle_resize cs4 cfg4 dSt4 [.Size 800 600, .DPR 2, .Size 810 600]).1.size_info.width
        = 810
    ∧ (handle_resize cs4 cfg4 dSt4 [.Size 800 600, .DPR 2, .Size 810 600]).1.size_info.height
        = 600
    ∧ (handle_resize cs4 cfg4 dSt4 [.Size 800 600, .DPR 2, .Size 810 600]).1.size_info.dpr
        = 2
    ∧ (handle_resize cs4 cfg4 dSt4 [.Size 800 600, .DPR 2, .Size 810 600]).2.glyphRebuilds
        = 1
    ∧ (handle_resize cs4 cfg4 dSt4 [.Size 800 600, .DPR 2, .Size 810 600]).2.geometryRecomputes
        = 1 := by
  refine ⟨fun st queue => ?_, ?_, ?_, ?_, ?_, ?_⟩
  · rw [coalesce, coalesce_foldl_eq, optOr_none, optOr_none]
  all_goals
    norm_num [handle_resize, coalesce, coalStep, hrRest, applyStage1, applyGlyph,
      applyFinal, resizeSizeInfoFn, fontChanged, noEffects, dSt4, cs4, cfg4]

theorem hrRest_mbl (cellSize : ℚ → ℚ → ℚ × ℚ) (cfg : Config) (st : DisplayState)
    (co : Coalesced) (n : ℕ) (h1 : co.message_bar_lines = some n) :
    ∃ si, (hrRest cellSize cfg st co).1.size_info = si
      ∧ (hrRest cellSize cfg st co).2.ptyNotify
          = some { si with height := si.height - si.cell_height * n } := by
  unfold hrRest applyStage1
  rw [if_pos (Or.inr (by rw [h1]; rfl))]
  by_cases hfc : fontChanged st co
  · simp only [applyGlyph, if_pos hfc]
    obtain ⟨w, h⟩ : ℚ × ℚ := co.new_size.getD
      (st.size_info.width / st.size_info.dpr * co.new_dpr,
       st.size_info.height / st.size_info.dpr * co.new_dpr)
    refine ⟨_, rfl, ?_⟩
    simp [applyFinal, h1]
  · simp only [applyGlyph, if_neg hfc]
    refine ⟨_, rfl, ?_⟩
    simp [applyFinal, h1]

theorem hrRest_pty_only_if (cellSize : ℚ → ℚ → ℚ × ℚ) (cfg : Config)
    (st : DisplayState) (co : Coalesced) (p : SizeInfo)
    (hp : (hrRest cellSize cfg st co).2.ptyNotify = some p) :
    co.message_bar_lines.isSome = true
      ∨ st.size_info.cols ≠ p.cols ∨ st.size_info.lines ≠ p.lines := by
  simp only [hrRest] at hp
  rcases hs : (applyStage1 st co).2 with _ | ⟨w, h⟩
  · rw [hs] at hp
    simp [applyFinal, noEffects] at hp
  · rw [hs] at hp
    simp only [applyFinal] at hp
    split at hp
    · rename_i hn
      simp only [Option.some.injEq] at hp
      subst hp
      exact hn
    · exact absurd hp (by simp)

theorem handle_resize_eq_hrRest (cellSize : ℚ → ℚ → ℚ × ℚ) (cfg : Config)
    (st : DisplayState) (queue : List Resize)
    (h2 : ∀ w h, (coalesce st queue).new_size = some (w, h) →
        fontChanged st (coalesce st queue)
          ∨ w ≠ st.size_info.width ∨ h ≠ st.size_info.height) :
    handle_resize cellSize cfg st queue = hrRest cellSize cfg st (coalesce st queue) := by
  simp only [handle_resize]
  split
  · rename_i w h hns
    rw [if_neg]
    rintro ⟨hfc, hw, hh⟩
    rcases h2 w h hns with hc | hc | hc
    · exact hfc hc
    · exact hc hw
    · exact hc hh
  · rfl

theorem hr_pty_only_if (cellSize : ℚ → ℚ → ℚ × ℚ) (cfg : Config)
    (st : DisplayState) (q2 : List Resize) (p : SizeInfo)
    (hp : (handle_resize cellSize cfg st q2).2.ptyNotify = some p) :
    (coalesce st q2).message_bar_lines.isSome = true
      ∨ st.size_info.cols ≠ p.cols ∨ st.size_info.lines ≠ p.lines := by
  simp only [handle_resize] at hp
  split at hp
  · split at hp
    · simp [noEffects] at hp
    · exact hrRest_pty_only_if _ _ _ _ _ hp
  · exact hrRest_pty_only_if _ _ _ _ _ hp

/-- C6: when a message-bar line-count signal of `n` lines is applied, the size
handed to the pty `on_resize` is the new `SizeInfo` with its height reduced by
`n * cell_height` and its width unchanged; and the pty is only ever notified
when a message-bar change arrived or the column or line count changed. -/
theorem c6_message_bar_pty (cellSize : ℚ → ℚ → ℚ × ℚ) (cfg : Config)
    (st : DisplayState) (queue : List Resize) (n : ℕ)
    (h1 : (coalesce st queue).message_bar_lines = some n)
    (h2 : ∀ w h, (coalesce st queue).new_size = some (w, h) →
        fontChanged st (coalesce st queue)
          ∨ w ≠ st.size_info.width ∨ h ≠ st.size_info.height) :
    (∃ si, (handle_resize cellSize cfg st queue).1.size_info = si
        ∧ (handle_resize cellSize cfg st queue).2.ptyNotify
            = some { si with height := si.height - si.cell_height * n })
    ∧ ∀ (q2 : List Resize) (p : SizeInfo),
        (handle_resize cellSize cfg st q2).2.ptyNotify = some p →
        ((coalesce st q2).message_bar_lines.isSome = true
          ∨ st.size_info.cols ≠ p.cols ∨ st.size_info.lines ≠ p.lines) := by
  constructor
  · rw [handle_resize_eq_hrRest cellSize cfg st queue h2]
    exact hrRest_mbl cellSize cfg st (coalesce st queue) n h1
  · exact fun q2 p hp => hr_pty_only_if cellSize cfg st q2 p hp

theorem c6_witness :
    (coalesce dSt6 [Resize.MessageBar 2]).message_bar_lines = some 2
    ∧ (∀ w h, (coalesce dSt6 [Resize.MessageBar 2]).new_size = some (w, h) →
        fontChanged dSt6 (coalesce dSt6 [Resize.MessageBar 2])
          ∨ w ≠ dSt6.size_info.width ∨ h ≠ dSt6.size_info.height)
    ∧ ((∃ si, (handle_resize cs6 cfg4 dSt6 [Resize.MessageBar 2]).1.size_info = si
        ∧ (handle_resize cs6 cfg4 dSt6 [Resize.MessageBar 2]).2.ptyNotify
            = some { si with height := si.height - si.cell_height * 2 })
      ∧ ∀ (q2 : List Resize) (p : SizeInfo),
        (handle_resize cs6 cfg4 dSt6 q2).2.ptyNotify = some p →
        ((coalesce dSt6 q2).message_bar_lines.isSome = true
          ∨ dSt6.size_info.cols ≠ p.cols ∨ dSt6.size_info.lines ≠ p.lines)) :=
  ⟨rfl, fun _ _ hc => Option.noConfusion hc,
   c6_message_bar_pty cs6 cfg4 dSt6 [Resize.MessageBar 2] 2 rfl
     (fun _ _ hc => Option.noConfusion hc)⟩

theorem update_lines_pair (szp : SizeInfo) (c : RenderableCell) (offset : ℚ × ℚ)
    (inner0 : List (Rect × Rgb)) (stu sts : Option Run) (m : Metrics) (sz : SizeInfo) :
    Rects.update_lines ⟨inner0, [⟨.underline, stu⟩, ⟨.strikeout, sts⟩], m, sz⟩ szp c offset
      = ⟨inner0 ++ ((lineStep szp c .underline stu).2.map (mkRect m sz offset .underline)
           ++ (lineStep szp c .strikeout sts).2.map (mkRect m sz offset .strikeout)),
         [⟨.underline, (lineStep szp c .underline stu).1⟩,
          ⟨.strikeout, (lineStep szp c .strikeout sts).1⟩], m, sz⟩ := by
  simp [Rects.update_lines, updateLinesList]

theorem foldCells_shape (szp : SizeInfo) (offset : ℚ × ℚ) (m : Metrics) (sz : SizeInfo)
    (cells : List RenderableCell) (inner0 : List (Rect × Rgb)) (stu sts : Option Run) :
    foldCells szp offset cells ⟨inner0, [⟨.underline, stu⟩, ⟨.strikeout, sts⟩], m, sz⟩
      = ⟨inner0 ++ (pairScan szp m sz offset stu sts cells).2.2,
         [⟨.underline, (pairScan szp m sz offset stu sts cells).1⟩,
          ⟨.strikeout, (pairScan szp m sz offset stu sts cells).2.1⟩], m, sz⟩ := by
  induction cells generalizing inner0 stu sts with
  | nil => simp [foldCells, pairScan]
  | cons c cs ih =>
    rw [foldCells, List.foldl_cons]
    show foldCells szp offset cs
        (Rects.update_lines ⟨inner0, [⟨.underline, stu⟩, ⟨.strikeout, sts⟩], m, sz⟩ szp c offset)
      = _
    rw [update_lines_pair, ih]
    simp [pairScan, List.append_assoc]

theorem pairScan_states (szp : SizeInfo) (m : Metrics) (sz : SizeInfo) (offset : ℚ × ℚ)
    (cells : List RenderableCell) (stu sts : Option Run) :
    (pairScan szp m sz offset stu sts cells).1 = (codeScanFrom szp .underline stu cells).1
    ∧ (pairScan szp m sz offset stu sts cells).2.1
        = (codeScanFrom szp .strikeout sts cells).1 := by
  induction cells generalizing stu sts with
  | nil => exact ⟨rfl, rfl⟩
  | cons c cs ih =>
    rw [pairScan, codeScanFrom, codeScanFrom]
    exact ih _ _

theorem perm_interchange (a b u v : List α) :
    (a ++ b ++ (u ++ v)).Perm ((a ++ u) ++ (b ++ v)) := by
  have h1 : a ++ b ++ (u ++ v) = a ++ (b ++ u ++ v) := by simp [List.append_assoc]
  have h2 : (a ++ u) ++ (b ++ v) = a ++ (u ++ b ++ v) := by simp [List.append_assoc]
  rw [h1, h2]
  exact List.Perm.append_left a (List.Perm.append_right v List.perm_append_comm)

theorem pairScan_perm (szp : SizeInfo) (m : Metrics) (sz : SizeInfo) (offset : ℚ × ℚ)
    (cells : List RenderableCell) (stu sts : Option Run) :
    ((pairScan szp m sz offset stu sts cells).2.2).Perm
      ((codeScanFrom szp .underline stu cells).2.map (mkRect m sz offset .underline)
        ++ (codeScanFrom szp .strikeout sts cells).2.map (mkRect m sz offset .strikeout)) := by
  induction cells generalizing stu sts with
  | nil => rw [pairScan, codeScanFrom, codeScanFrom]; rfl
  | cons c cs ih =>
    rw [pairScan, codeScanFrom, codeScanFrom]
    simp only [List.map_append]
    exact (List.Perm.append_left _ (ih _ _)).trans (perm_interchange _ _ _ _)

theorem lineStep_eq_specStep (szp : SizeInfo) (c : RenderableCell) (f : Flag)
    (st : Option Run) (hc : c.column < szp.cols) :
    lineStep szp c f st = specStep f st c := by
  have hne : ¬ atEnd szp c := by
    rintro ⟨h1, _⟩
    omega
  match st with
  | none => rfl
  | some (s, e) =>
    rw [lineStep, specStep]
    by_cases hcont : contRun s e f c
    · rw [if_pos hcont, if_pos hcont, if_neg hne]
    · rw [if_neg hcont, if_neg hcont]

theorem codeScan_eq_specScan (szp : SizeInfo) (f : Flag) (cells : List RenderableCell)
    (st : Option Run) (hval : ∀ c ∈ cells, c.column < szp.cols) :
    codeScanFrom szp f st cells = specScanFrom f st cells := by
  induction cells generalizing st with
  | nil => rfl
  | cons c cs ih =>
    rw [codeScanFrom, specScanFrom,
      lineStep_eq_specStep szp c f st (hval c (List.mem_cons_self c cs)),
      ih _ (fun x hx => hval x (List.mem_cons_of_mem c hx))]

theorem lineStep_wf (szp : SizeInfo) (c : RenderableCell) (f : Flag) (st : Option Run)
    (hwf : ∀ s e, st = some (s, e) → s.line = e.line ∧ s.column ≤ e.col) :
    ∀ s e, (lineStep szp c f st).1 = some (s, e) → s.line = e.line ∧ s.column ≤ e.col := by
  intro s e h
  match st with
  | none =>
    rw [lineStep] at h
    split at h
    · obtain ⟨rfl, rfl⟩ : c = s ∧ pointOfCell c = e := by
        simpa using h
      exact ⟨rfl, le_refl _⟩
    · exact absurd h (by simp)
  | some (s0, e0) =>
    rw [lineStep] at h
    obtain ⟨h1, h2⟩ := hwf s0 e0 rfl
    split at h
    · rename_i hcont
      split at h
      · obtain ⟨rfl, rfl⟩ : s0 = s ∧ e0 = e := by simpa using h
        exact ⟨h1, h2⟩
      · obtain ⟨rfl, rfl⟩ : s0 = s ∧ pointOfCell c = e := by simpa using h
        obtain ⟨hl, _, _, hcol⟩ := hcont
        refine ⟨hl.symm, ?_⟩
        simp only [pointOfCell]
        omega
    · split at h
      · obtain ⟨rfl, rfl⟩ : c = s ∧ pointOfCell c = e := by simpa using h
        exact ⟨rfl, le_refl _⟩
      · exact absurd h (by simp)

theorem codeScan_wf (szp : SizeInfo) (f : Flag) (cells : List RenderableCell)
    (st : Option Run)
    (hwf : ∀ s e, st = some (s, e) → s.line = e.line ∧ s.column ≤ e.col) :
    ∀ s e, (codeScanFrom szp f st cells).1 = some (s, e)
      → s.line = e.line ∧ s.column ≤ e.col := by
  induction cells generalizing st with
  | nil => exact hwf
  | cons c cs ih =>
    rw [codeScanFrom]
    exact ih _ (lineStep_wf szp c f st hwf)

/-- C9: after feeding any cell sequence to `Rects::update_lines`, the builder
still tracks exactly one line per flag (underline then strikeout), and every
open range has its start cell and end point on the same terminal row with the
start column not past the end column. -/
theorem c9_invariant (szp : SizeInfo) (offset : ℚ × ℚ) (m : Metrics) (sz : SizeInfo)
    (cells : List RenderableCell) :
    (foldCells szp offset cells (Rects.new m sz)).active_lines.map Line.flag
        = [Flag.underline, Flag.strikeout]
    ∧ ∀ l ∈ (foldCells szp offset cells (Rects.new m sz)).active_lines,
        ∀ s e, l.range = some (s, e) → s.line = e.line ∧ s.column ≤ e.col := by
  rw [show Rects.new m sz = ⟨[], [⟨.underline, none⟩, ⟨.strikeout, none⟩], m, sz⟩ from rfl,
    foldCells_shape]
  refine ⟨rfl, ?_⟩
  intro l hl s e hr
  have hvac : ∀ s e, (none : Option Run) = some (s, e)
      → s.line = e.line ∧ s.column ≤ e.col := by
    intro _ _ h
    exact absurd h (by simp)
  simp only [List.mem_cons, List.not_mem_nil, or_false] at hl
  rcases hl with rfl | rfl
  · exact codeScan_wf szp .underline cells none hvac s e
      (by rw [← (pairScan_states szp m sz offset cells none none).1]; exact hr)
  · exact codeScan_wf szp .strikeout cells none hvac s e
      (by rw [← (pairScan_states szp m sz offset cells none none).2]; exact hr)

theorem specScanFrom_cons (f : Flag) (st : Option Run) (c : RenderableCell)
    (cs : List RenderableCell) :
    specScanFrom f st (c :: cs)
      = ((specScanFrom f (specStep f st c).1 cs).1,
         (specStep f st c).2 ++ (specScanFrom f (specStep f st c).1 cs).2) := rfl

theorem specScan_props (f : Flag) (cells : List RenderableCell) (st : Option Run)
    (hchain : List.Pairwise cellLt cells)
    (hst : ∀ s e, st = some (s, e) → runWf (s, e) ∧ ∀ c ∈ cells, endLt e c) :
    (∀ p ∈ (specScanFrom f st cells).2, runWf p)
    ∧ List.Pairwise runBefore (specScanFrom f st cells).2
    ∧ (∀ p ∈ (specScanFrom f st cells).2,
        (∃ s e, st = some (s, e) ∧ p.1 = s) ∨ p.1 ∈ cells) := by
  induction cells generalizing st with
  | nil => simp [specScanFrom]
  | cons c cs ih =>
    obtain ⟨hcc, hcs⟩ := List.pairwise_cons.mp hchain
    have hnewopen : ∀ s e, some (c, pointOfCell c) = some (s, e)
        → runWf (s, e) ∧ ∀ x ∈ cs, endLt e x := by
      rintro s e h
      obtain ⟨rfl, rfl⟩ : c = s ∧ pointOfCell c = e := by simpa using h
      refine ⟨⟨rfl, le_refl _⟩, ?_⟩
      intro x hx
      exact hcc x hx
    rw [specScanFrom_cons]
    rcases st with _ | ⟨s0, e0⟩
    · by_cases hflag : c.flags.containsF f = true
      · have hstep : specStep f none c = (some (c, pointOfCell c), []) := by
          rw [specStep, if_pos hflag]
        rw [hstep]
        obtain ⟨ihwf, ihpw, ihor⟩ := ih (some (c, pointOfCell c)) hcs hnewopen
        refine ⟨by simpa using ihwf, by simpa using ihpw, ?_⟩
        intro p hp
        simp only [List.nil_append] at hp
        rcases ihor p hp with ⟨s, e, hse, hps⟩ | hmem
        · obtain ⟨rfl, rfl⟩ : c = s ∧ pointOfCell c = e := by simpa using hse
          exact Or.inr (by rw [hps]; exact List.mem_cons_self c cs)
        · exact Or.inr (List.mem_cons_of_mem c hmem)
      · have hstep : specStep f none c = (none, []) := by
          rw [specStep, if_neg hflag]
        rw [hstep]
        obtain ⟨ihwf, ihpw, ihor⟩ := ih none hcs (by rintro s e ⟨⟩)
        refine ⟨by simpa using ihwf, by simpa using ihpw, ?_⟩
        intro p hp
        simp only [List.nil_append] at hp
        rcases ihor p hp with ⟨s, e, hse, _⟩ | hmem
        · exact absurd hse (by simp)
        · exact Or.inr (List.mem_cons_of_mem c hmem)
    · obtain ⟨hwf0, hend⟩ := hst s0 e0 rfl
      have hwf1 : s0.line = e0.line := hwf0.1
      have hwf2 : s0.column ≤ e0.col := hwf0.2
      by_cases hcont : contRun s0 e0 f c
      · have hstep : specStep f (some (s0, e0)) c = (some (s0, pointOfCell c), []) := by
          rw [specStep, if_pos hcont]
        rw [hstep]
        have hext : ∀ s e, some (s0, pointOfCell c) = some (s, e)
            → runWf (s, e) ∧ ∀ x ∈ cs, endLt e x := by
          rintro s e h
          obtain ⟨rfl, rfl⟩ : s0 = s ∧ pointOfCell c = e := by simpa using h
          obtain ⟨hl, _, _, hcol⟩ := hcont
          refine ⟨⟨hl.symm, by simp only [pointOfCell]; omega⟩, ?_⟩
          intro x hx
          exact hcc x hx
        obtain ⟨ihwf, ihpw, ihor⟩ := ih (some (s0, pointOfCell c)) hcs hext
        refine ⟨by simpa using ihwf, by simpa using ihpw, ?_⟩
        intro p hp
        simp only [List.nil_append] at hp
        rcases ihor p hp with ⟨s, e, hse, hps⟩ | hmem
        · obtain ⟨rfl, rfl⟩ : s0 = s ∧ pointOfCell c = e := by simpa using hse
          exact Or.inl ⟨s0, e0, rfl, hps⟩
        · exact Or.inr (List.mem_cons_of_mem c hmem)
      · by_cases hflag : c.flags.containsF f = true
        · have hstep : specStep f (some (s0, e0)) c
              = (some (c, pointOfCell c), [(s0, e0)]) := by
            rw [specStep, if_neg hcont, if_pos hflag]
          rw [hstep]
          obtain ⟨ihwf, ihpw, ihor⟩ := ih (some (c, pointOfCell c)) hcs hnewopen
          have horigin : ∀ p ∈ (specScanFrom f (some (c, pointOfCell c)) cs).2,
              p.1 ∈ c :: cs := by
            intro p hp
            rcases ihor p hp with ⟨s, e, hse, hps⟩ | hmem
            · obtain ⟨rfl, rfl⟩ : c = s ∧ pointOfCell c = e := by simpa using hse
              exact (by rw [hps]; exact List.mem_cons_self c cs)
            · exact List.mem_cons_of_mem c hmem
          refine ⟨?_, ?_, ?_⟩
          · intro p hp
            rcases List.mem_append.mp hp with hp | hp
            · obtain rfl : p = (s0, e0) := by simpa using hp
              exact ⟨hwf1, hwf2⟩
            · exact ihwf p hp
          · rw [List.singleton_append, List.pairwise_cons]
            refine ⟨?_, ihpw⟩
            intro b hb
            exact hend b.1 (horigin b hb)
          · intro p hp
            rcases List.mem_append.mp hp with hp | hp
            · obtain rfl : p = (s0, e0) := by simpa using hp
              exact Or.inl ⟨s0, e0, rfl, rfl⟩
            · exact Or.inr (horigin p hp)
        · have hstep : specStep f (some (s0, e0)) c = (none, [(s0, e0)]) := by
            rw [specStep, if_neg hcont, if_neg hflag]
          rw [hstep]
          obtain ⟨ihwf, ihpw, ihor⟩ := ih none hcs (by rintro s e ⟨⟩)
          have horigin : ∀ p ∈ (specScanFrom f none cs).2, p.1 ∈ c :: cs := by
            intro p hp
            rcases ihor p hp with ⟨s, e, hse, _⟩ | hmem
            · exact absurd hse (by simp)
            · exact List.mem_cons_of_mem c hmem
          refine ⟨?_, ?_, ?_⟩
          · intro p hp
            rcases List.mem_append.mp hp with hp | hp
            · obtain rfl : p = (s0, e0) := by simpa using hp
              exact ⟨hwf1, hwf2⟩
            · exact ihwf p hp
          · rw [List.singleton_append, List.pairwise_cons]
            refine ⟨?_, ihpw⟩
            intro b hb
            exact hend b.1 (horigin b hb)
          · intro p hp
            rcases List.mem_append.mp hp with hp | hp
            · obtain rfl : p = (s0, e0) := by simpa using hp
              exact Or.inl ⟨s0, e0, rfl, rfl⟩
            · exact Or.inr (horigin p hp)

/-- C1 (amended): for valid in-grid cell sequences fed in scan order, the
accumulated rectangles are exactly the rectangles of the maximal runs closed
by a later cell (the trailing still-open run is never emitted), pairwise
ordered and colored with the run's starting foreground. -/
theorem c1_closed_runs_correspondence (szp : SizeInfo) (offset : ℚ × ℚ) (m : Metrics)
    (sz : SizeInfo) (cells : List RenderableCell)
    (hval : ∀ c ∈ cells, c.column < szp.cols)
    (hscan : scanOrdered cells) :
    c1Correspondence szp offset m sz cells := by
  have hvac : ∀ s e, (none : Option Run) = some (s, e)
      → runWf (s, e) ∧ ∀ c ∈ cells, endLt e c := by rintro s e ⟨⟩
  have hprops := fun f => specScan_props f cells none hscan hvac
  have hperm := pairScan_perm szp m sz offset cells none none
  rw [codeScan_eq_specScan szp .underline cells none hval,
    codeScan_eq_specScan szp .strikeout cells none hval] at hperm
  simp only [c1Correspondence]
  rw [show Rects.new m sz = ⟨[], [⟨.underline, none⟩, ⟨.strikeout, none⟩], m, sz⟩ from rfl,
    foldCells_shape]
  simp only [List.nil_append]
  refine ⟨hperm, fun f => (hprops f).2.1, fun f p hp => (hprops f).1 p hp, ?_⟩
  intro x hx
  have hx2 := hperm.mem_iff.mp hx
  rcases List.mem_append.mp hx2 with h | h
  · obtain ⟨p, hp, rfl⟩ := List.mem_map.mp h
    exact ⟨.underline, p, hp, rfl, rfl⟩
  · obtain ⟨p, hp, rfl⟩ := List.mem_map.mp h
    exact ⟨.strikeout, p, hp, rfl, rfl⟩

theorem sz2_cols : sz2.cols = 2 := by
  norm_num [SizeInfo.cols, ratTrunc, sz2]
  all_goals decide

theorem sz2_lines : sz2.lines = 1 := by
  norm_num [SizeInfo.lines, ratTrunc, sz2]

theorem c1_witness_hval : ∀ c ∈ [cellA, cellBoff], c.column < sz2.cols := by
  intro c hc
  rw [sz2_cols]
  simp only [List.mem_cons, List.not_mem_nil, or_false] at hc
  rcases hc with rfl | rfl
  · norm_num [cellA]
  · norm_num [cellBoff]

theorem c1_witness_hscan : scanOrdered [cellA, cellBoff] := by
  unfold scanOrdered
  decide

theorem c1_witness :
    (∀ c ∈ [cellA, cellBoff], c.column < sz2.cols)
    ∧ scanOrdered [cellA, cellBoff]
    ∧ c1Correspondence sz2 (0, 0) m2 sz2 [cellA, cellBoff] :=
  ⟨c1_witness_hval, c1_witness_hscan,
   c1_closed_runs_correspondence sz2 (0, 0) m2 sz2 [cellA, cellBoff]
     c1_witness_hval c1_witness_hscan⟩

/-- C1 counterexample: a single underlined cell is one maximal run, but no
rectangle is ever emitted for it, so the rectangles do not tile all maximal
runs. -/
theorem c1_counterexample : ¬ c1AsStated sz2 (0, 0) m2 sz2 [cellA] := by
  intro h
  simp only [c1AsStated] at h
  obtain ⟨hperm, -, -⟩ := h
  simp [foldCells, Rects.update_lines, updateLinesList, lineStep, Rects.new,
    specMaximalRuns, specClosedRuns, specOpenRun, specScanFrom, specStep,
    Flags.containsF, cellA, flagU, pointOfCell] at hperm

/-- C2 (code bug evaluation): on a 2-column, 1-line grid, feeding the full
grid row of two contiguous underlined red cells leaves the run open and emits
no rectangle: the end-of-terminal flush condition compares the column/line
counts with the 0-based indices of the last cell and never fires. -/
theorem c2_end_of_grid_flush_never_fires :
    sz2.cols = 2 ∧ sz2.lines = 1
    ∧ cellB.column = 1 ∧ cellB.line = 0
    ∧ ¬ atEnd sz2 cellB
    ∧ (foldCells sz2 (0, 0) [cellA, cellB] (Rects.new m2 sz2)).inner = []
    ∧ (foldCells sz2 (0, 0) [cellA, cellB] (Rects.new m2 sz2)).active_lines
        = [⟨.underline, some (cellA, ⟨0, 1⟩)⟩, ⟨.strikeout, none⟩]
    ∧ specMaximalRuns .underline [cellA, cellB] = [(cellA, ⟨0, 1⟩)] := by
  refine ⟨sz2_cols, sz2_lines, rfl, rfl, ?_, ?_, ?_, ?_⟩
  · rintro ⟨h1, -⟩
    rw [sz2_cols] at h1
    exact absurd h1 (by norm_num [cellB])
  · rw [show Rects.new m2 sz2 = ⟨[], [⟨.underline, none⟩, ⟨.strikeout, none⟩], m2, sz2⟩
        from rfl, foldCells_shape]
    simp [pairScan, lineStep, contRun, atEnd, sz2_cols, sz2_lines,
      Flags.containsF, cellA, cellB, flagU, pointOfCell, red]
  · rw [show Rects.new m2 sz2 = ⟨[], [⟨.underline, none⟩, ⟨.strikeout, none⟩], m2, sz2⟩
        from rfl, foldCells_shape]
    simp [pairScan, lineStep, contRun, atEnd, sz2_cols, sz2_lines,
      Flags.containsF, cellA, cellB, flagU, pointOfCell, red]
  · simp [specMaximalRuns, specClosedRuns, specOpenRun, specScanFrom, specStep,
      contRun, Flags.containsF, cellA, cellB, flagU, pointOfCell, red]

theorem roundAway_ge_one (q : ℚ) (h : (1 : ℚ) ≤ q) : (1 : ℚ) ≤ (roundAway q : ℚ) := by
  rw [roundAway, if_pos (by linarith)]
  have h2 : (1 : ℤ) ≤ ⌊q + 1/2⌋ := by
    rw [Int.le_floor]
    push_cast
    linarith
  exact_mod_cast h2

theorem roundAway_le_add_half (q : ℚ) : (roundAway q : ℚ) ≤ q + 1/2 := by
  rw [roundAway]
  split
  · exact Int.floor_le _
  · rename_i hq
    push_neg at hq
    have h2 : (-q + 1/2) - 1 < (⌊-q + 1/2⌋ : ℚ) := Int.sub_one_lt_floor _
    push_cast
    linarith

theorem ite_gt_eq_min (a b : ℚ) : (if a > b then b else a) = min a b := by
  split
  · exact (min_eq_right (le_of_lt (by assumption))).symm
  · exact (min_eq_left (not_lt.mp (by assumption))).symm

/-- C3 (amended): the rectangle of a flushed run has the claimed x and width;
its height is the per-flag thickness floored at one pixel and then rounded
half away from zero (hence at least one pixel); its unrounded vertical
position is clamped so that it plus the unrounded height never exceeds the
starting row's bottom edge, the emitted y being that clamped value rounded
plus padding and offset ; through the rounding, the final rectangle bottom
exceeds the row bottom by at most one pixel; and the color is the starting
cell's foreground. -/
theorem c3_rect_geometry (start : RenderableCell) (e : Point) (f : Flag) (m : Metrics)
    (size : SizeInfo) (offset : ℚ × ℚ) :
    (create_rect start e f m size offset).1.x
        = start.column * size.cell_width + size.padding_x + offset.1
    ∧ (create_rect start e f m size offset).1.width
        = ((e.col : ℚ) + 1 - start.column) * size.cell_width
    ∧ (create_rect start e f m size offset).1.height
        = (roundAway (max (flagMetrics f m).2 1) : ℚ)
    ∧ (1 : ℚ) ≤ (create_rect start e f m size offset).1.height
    ∧ (min (((start.line : ℚ) + 1) * size.cell_height + m.descent - (flagMetrics f m).1
            - max (flagMetrics f m).2 1 / 2)
          (((start.line : ℚ) + 1) * size.cell_height - max (flagMetrics f m).2 1)
        + max (flagMetrics f m).2 1
        ≤ ((start.line : ℚ) + 1) * size.cell_height)
    ∧ (create_rect start e f m size offset).1.y
        = (roundAway (min (((start.line : ℚ) + 1) * size.cell_height + m.descent
              - (flagMetrics f m).1 - max (flagMetrics f m).2 1 / 2)
            (((start.line : ℚ) + 1) * size.cell_height - max (flagMetrics f m).2 1)) : ℚ)
          + size.padding_y + offset.2
    ∧ (create_rect start e f m size offset).1.y + (create_rect start e f m size offset).1.height
        ≤ ((start.line : ℚ) + 1) * size.cell_height + size.padding_y + offset.2 + 1
    ∧ (create_rect start e f m size offset).2 = start.fg := by
  have hy : (create_rect start e f m size offset).1.y
      = (roundAway (min (((start.line : ℚ) + 1) * size.cell_height + m.descent
            - (flagMetrics f m).1 - max (flagMetrics f m).2 1 / 2)
          (((start.line : ℚ) + 1) * size.cell_height - max (flagMetrics f m).2 1)) : ℚ)
        + size.padding_y + offset.2 := by
    rw [create_rect]
    simp only [ite_gt_eq_min]
  have hh : (create_rect start e f m size offset).1.height
      = (roundAway (max (flagMetrics f m).2 1) : ℚ) := rfl
  have hclamp : min (((start.line : ℚ) + 1) * size.cell_height + m.descent
        - (flagMetrics f m).1 - max (flagMetrics f m).2 1 / 2)
      (((start.line : ℚ) + 1) * size.cell_height - max (flagMetrics f m).2 1)
      + max (flagMetrics f m).2 1 ≤ ((start.line : ℚ) + 1) * size.cell_height := by
    have := min_le_right (((start.line : ℚ) + 1) * size.cell_height + m.descent
        - (flagMetrics f m).1 - max (flagMetrics f m).2 1 / 2)
      (((start.line : ℚ) + 1) * size.cell_height - max (flagMetrics f m).2 1)
    linarith
  refine ⟨rfl, ?_, hh, ?_, hclamp, hy, ?_, rfl⟩
  · show ((e.col + 1 : ℕ) : ℚ) * size.cell_width - start.column * size.cell_width = _
    push_cast
    ring
  · rw [hh]
    exact roundAway_ge_one _ (le_max_right _ _)
  · rw [hy, hh]
    have h1 := roundAway_le_add_half (min (((start.line : ℚ) + 1) * size.cell_height
        + m.descent - (flagMetrics f m).1 - max (flagMetrics f m).2 1 / 2)
      (((start.line : ℚ) + 1) * size.cell_height - max (flagMetrics f m).2 1))
    have h2 := roundAway_le_add_half (max (flagMetrics f m).2 1)
    linarith

/-- C3 counterexample: with underline thickness 3/2 at position 0 and descent
0 in 10x10 cells, the emitted rectangle has height 2 (not the thickness
floored at one pixel) and its bottom reaches one pixel below the row's bottom
edge. -/
theorem c3_counterexample :
    create_rect ⟨0, 0, red, flagU⟩ ⟨0, 0⟩ .underline m3 sz3 (0, 0) = (⟨0, 9, 10, 2⟩, red)
    ∧ ¬ c3AsStated ⟨0, 0, red, flagU⟩ ⟨0, 0⟩ .underline m3 sz3 (0, 0) := by
  have hval : create_rect ⟨0, 0, red, flagU⟩ ⟨0, 0⟩ .underline m3 sz3 (0, 0)
      = (⟨0, 9, 10, 2⟩, red) := by
    rw [create_rect]
    norm_num [flagMetrics, roundAway, m3, sz3]
  refine ⟨hval, ?_⟩
  intro h
  simp only [c3AsStated, hval] at h
  obtain ⟨-, -, hh, -⟩ := h
  rw [show max (flagMetrics Flag.underline m3).2 1 = 3/2 from by norm_num [flagMetrics, m3]]
    at hh
  norm_num at hh
